import Mathlib

/-
  Verification of the core of `predict.py` (song/genre classification):
  a shallow embedding of the configuration-identity scheme, the snapshot
  scan, the dataset-sizing arithmetic, the two sample builders with
  min-max normalization, the prediction driver and the fitting loop.

  Machine floats of the source are modelled by exact rationals; Python
  `int(...)` truncation and `round(...)` (bankers rounding, round half to even) are modelled
  explicitly.  Fallible operations (attribute lookup, list indexing,
  `np.random.randint` on an empty range) are modelled with Option/Except.
-/

namespace Songs

/-- A Python value held in a configuration attribute that the identity
computation can meet: a boolean or a number (floats modelled as ℚ). -/
inductive PVal where
  | pbool : Bool → PVal
  | pnum : ℚ → PVal
deriving DecidableEq

/-- A configuration as seen by the identity computation: a map from
attribute name to value, `none` meaning the attribute is missing (or its
evaluation raises), which in the source lands in the `except` branch. -/
def Cfg : Type := String → Option PVal

/-- Python equality test `v == False`: `False` itself, but also the
numbers `0` and `0.0`, compare equal to `False` in Python. -/
def pyEqFalse : PVal → Bool
  | PVal.pbool b => !b
  | PVal.pnum q => q == 0

/-- Python equality test `v == True`: `True` itself, but also the
numbers `1` and `1.0`, compare equal to `True` in Python. -/
def pyEqTrue : PVal → Bool
  | PVal.pbool b => b
  | PVal.pnum q => q == 1

/-- Numeric content of a value (Python treats booleans as 0/1 in
arithmetic contexts). -/
def pvRat : PVal → ℚ
  | PVal.pbool true => 1
  | PVal.pbool false => 0
  | PVal.pnum q => q

/-- Python one-argument `round`: round half to even. -/
def pyRound (q : ℚ) : ℤ :=
  if q - ⌊q⌋ < 1 / 2 then ⌊q⌋
  else if q - ⌊q⌋ > 1 / 2 then ⌊q⌋ + 1
  else if ⌊q⌋ % 2 = 0 then ⌊q⌋ else ⌊q⌋ + 1

/-- Python `int(...)`: truncation toward zero. -/
def pyInt (q : ℚ) : ℤ :=
  if 0 ≤ q then ⌊q⌋ else -⌊-q⌋

/-- The ordered list of "importance" fields of `getTemporaryData`
(predict.py line 91). -/
def importance : List String :=
  ["use_random_in_feat", "nfilt", "nfeat", "nfft", "frame_rate", "sample_length",
   "audio_length", "audio_startpoint", "validation_data_mult", "cat", "max_class_files"]

/-- The `if/elif/else` branch of the identity update (predict.py lines
96-101 and 103-108): value equal to `False` multiplies by the name
length, value equal to `True` divides by it, anything else adds ten
times the value. -/
def idBranch (acc : ℚ) (v : PVal) (len : ℕ) : ℚ :=
  if pyEqFalse v then acc * len
  else if pyEqTrue v then acc / len
  else acc + pvRat v * 10

/-- The `try` block of `getTemporaryData` for one importance field, on
the lockstep state (candidate id, current id).  A raise carries the
state reached so far: the candidate side is updated first (lines
96-101), so a raise while reading the current configuration leaves the
candidate side already updated.  On success both sides are rounded and
incremented (lines 109-110). -/
def idTryStep (conf cfg : Cfg) (prop : String) (s : ℚ × ℚ) : Except (ℚ × ℚ) (ℚ × ℚ) :=
  match conf prop with
  | none => Except.error s
  | some v =>
    let s1 : ℚ × ℚ := (idBranch s.1 v prop.length, s.2)
    match cfg prop with
    | none => Except.error s1
    | some w =>
      let s2 : ℚ × ℚ := (s1.1, idBranch s1.2 w prop.length)
      Except.ok ((pyRound s2.1 : ℚ) + 1, (pyRound s2.2 : ℚ) + 1)

/-- One importance field of the lockstep identity loop: the `try` block,
with the `except` handler (lines 112-114) multiplying both accumulators
by the field-name length. -/
def idStep (conf cfg : Cfg) (s : ℚ × ℚ) (prop : String) : ℚ × ℚ :=
  match idTryStep conf cfg prop s with
  | Except.ok s2 => s2
  | Except.error s1 => (s1.1 * prop.length, s1.2 * prop.length)

/-- The lockstep identity computation of `getTemporaryData` for one
candidate: both accumulators seeded to 1 (lines 89-90), then the
importance fields folded in list order.  First component: the candidate
(`conf.id`); second: the current configuration (`config.id`). -/
def computeIds (conf cfg : Cfg) : ℚ × ℚ :=
  importance.foldl (idStep conf cfg) (1, 1)

/-- The directory scan of `getTemporaryData` (lines 87-119): per
candidate both ids are recomputed from the seed, the first candidate
with matching ids is returned, and the running `config.id` (the value
the source prints when nothing matches) is threaded as the second
component of the result. -/
def scanConfigs (cfg : Cfg) (curId : ℚ) : List Cfg → Option Cfg × ℚ
  | [] => (none, curId)
  | conf :: rest =>
    let p := computeIds conf cfg
    if p.1 = p.2 then (some conf, p.2) else scanConfigs cfg p.2 rest

/-- The function getTemporaryData, given the current configuration, its
prior `id` attribute and the snapshot directory listing in glob order. -/
def getTemporaryData (cfg : Cfg) (curId : ℚ) (snapshots : List Cfg) : Option Cfg × ℚ :=
  scanConfigs cfg curId snapshots

/-- One identity field update as the specification words it, for a
single configuration: a field that fails to evaluate multiplies the
accumulator by the field-name length; otherwise a false-valued field
multiplies by the name length, a true-valued field divides by it, a
numeric field adds ten times the value, and the result of the field is
rounded and incremented by 1. -/
def specFieldUpdate (len : ℕ) (r : Option PVal) (acc : ℚ) : ℚ :=
  match r with
  | none => acc * len
  | some v =>
    (pyRound (if pyEqFalse v then acc * len
              else if pyEqTrue v then acc / len
              else acc + pvRat v * 10) : ℚ) + 1

/-- The identity of a single configuration, as the specification
describes it: fold the importance fields over an accumulator seeded
to 1. -/
def specIdentity (c : Cfg) : ℚ :=
  importance.foldl (fun acc prop => specFieldUpdate prop.length (c prop) acc) 1

/-- The function getRefactoredData (predict.py lines 63-67): float
division by the category count, truncation, multiplication back. -/
def getRefactoredData (cat : ℕ) (data : ℕ) : ℕ :=
  let data_x1 : ℚ := (data : ℚ) / (cat : ℚ)
  let data_x2 : ℤ := pyInt data_x1
  let data_x3 : ℤ := data_x2 * (cat : ℤ)
  data_x3.toNat

/-- The function getMaximumSamples (predict.py lines 59-60):
`int(al / sl)` where `al` models `config.audio_length` and `sl` models
`config.sample_length`. -/
def getMaximumSamples (al sl : ℚ) : ℤ :=
  pyInt (al / sl)

/-- Concrete configuration with every importance field numeric 2, and
the field nfilt missing so that the error-recovery path is exercised. -/
def cfgA : Cfg := fun s => if s = "nfilt" then none else some (PVal.pnum 2)

/-- Like cfgA but with a different value on the cat field and an extra
attribute outside the importance list. -/
def cfgB : Cfg := fun s =>
  if s = "nfilt" then none
  else if s = "cat" then some (PVal.pnum 4)
  else if s = "id" then some (PVal.pbool true)
  else some (PVal.pnum 2)

/-- Concrete configuration with every importance field numeric 4. -/
def cfgD : Cfg := fun _ => some (PVal.pnum 4)

/-- Concrete configuration with every importance field numeric 2. -/
def cfgE : Cfg := fun _ => some (PVal.pnum 2)

/-- Like cfgE on every importance field, but with an extra attribute
outside the importance list. -/
def cfgF : Cfg := fun s => if s = "id" then some (PVal.pnum 99) else some (PVal.pnum 2)

/-- Python sys.maxsize, the seed of the minority-file scan. -/
def sysMaxsize : ℕ := 2 ^ 63 - 1

/-- The function getSmallestDataset (predict.py lines 70-77): the
minimum per-class file count over the class table, seeded with
sys.maxsize. -/
def getSmallestDataset (classes : List String) (fcount : String → ℕ) : ℕ :=
  classes.foldl (fun m c => if m > fcount c then fcount c else m) sysMaxsize

/-- The user-override part of a configuration: each field is either the
False sentinel (tested with `is False` in the source, modelled `none`)
or a user-supplied number, plus the audio geometry the computed maxima
derive from. -/
structure OvConfig where
  cat : Option ℕ
  max_class_files : Option ℕ
  max_tack_samples : Option ℕ
  max_data : Option ℕ
  audio_length : ℚ
  sample_length : ℚ

/-- The configuration fields after `calculateConfigData`, plus one
warning flag per field (a warning models the "is to large" print). -/
structure ResolvedConfig where
  cat : ℕ
  max_class_files : ℕ
  max_tack_samples : ℕ
  max_data : ℕ
  warnings : List Bool

/-- The per-field pattern of `calculateConfigData`: an unset
(False-sentinel) field takes the computed value; a user value above the
computed maximum is replaced by the maximum with a warning; otherwise
the user value is kept.  No branch aborts. -/
def resolveOverride (user : Option ℕ) (computed : ℕ) : ℕ × Bool :=
  match user with
  | none => (computed, false)
  | some u => if u > computed then (computed, true) else (u, false)

/-- The function calculateConfigData (predict.py lines 411-442): the
four fields in source order; the computed maximum of max_data uses the
already-clamped values of the earlier fields, in the order of
`getMaximumData`. -/
def calculateConfigData (ov : OvConfig) (classes : List String) (fcount : String → ℕ) :
    ResolvedConfig :=
  let r1 := resolveOverride ov.cat classes.length
  let r2 := resolveOverride ov.max_class_files (getSmallestDataset classes fcount)
  let r3 := resolveOverride ov.max_tack_samples
    (getMaximumSamples ov.audio_length ov.sample_length).toNat
  let r4 := resolveOverride ov.max_data (r2.1 * r1.1 * r3.1)
  ⟨r1.1, r2.1, r3.1, r4.1, [r1.2, r2.2, r3.2, r4.2]⟩

/-- One call of the fitting loop, data part only: the training tensors
are shuffled with the fixed seed, then the validation tensors are
reassigned as a same-seed shuffle of the (already shuffled) training
tensors (predict.py lines 387-388).  `sh` models
`shuffle(..., random_state=0)` at the granularity of (sample, label)
rows. -/
def fitStep {α : Type} (sh : List α → List α) (s : List α × List α) : List α × List α :=
  let X := sh s.1
  let val := sh X
  (X, val)

/-- The per-call trace of the fitting loop: the (training, validation)
data passed to model.fit on each call. -/
def fitRun {α : Type} (sh : List α → List α) : ℕ → List α × List α → List (List α × List α)
  | 0, _ => []
  | k + 1, s => fitStep sh s :: fitRun sh k (fitStep sh s)

/-- The data flow of fitModel, given the supplied training and
validation rows and the number of calls. -/
def fitModelTrace {α : Type} (sh : List α → List α) (calls : ℕ) (X0 val0 : List α) :
    List (List α × List α) :=
  fitRun sh calls (X0, val0)

/-- The labeled-audio corpus: the class list (distinct labels of the
class table), the per-class file list in table order, and the decoded
waveform of each file.  The MFCC transform is a black box `feat` from a
waveform window to the (flattened) coefficient matrix; the sample rate
is dropped since `feat` absorbs it. -/
structure Corpus where
  classes : List String
  filesOf : String → List String
  wav : String → List ℚ

/-- The configuration fields the sample builders read. -/
structure FeatCfg where
  cat : ℕ
  step : ℕ
  max_tack_samples : ℕ

/-- The body of one (round, class) iteration of getRandomSamples
(predict.py lines 162-188): an empty waveform is skipped with a logged
error (`none`); a waveform no longer than one step makes
`np.random.randint(0, len - step)` raise (`Except.error`, an uncaught
crash); otherwise one sample is produced at a random legal offset
(`pick` chooses the file for a (round, class) pair and `roff` the
window offset, reduced modulo the legal range). -/
def randomUnit (fc : FeatCfg) (co : Corpus) (feat : List ℚ → List ℚ)
    (pick : ℕ → String → String) (roff : ℕ → String → ℕ) (u : ℕ × String) :
    Except Unit (Option (List (List ℚ × ℕ))) :=
  let w := co.wav (pick u.1 u.2)
  if w.length = 0 then Except.ok none
  else if w.length ≤ fc.step then Except.error ()
  else
    let idx := roff u.1 u.2 % (w.length - fc.step)
    Except.ok (some [(feat ((w.drop idx).take fc.step), co.classes.indexOf u.2)])

/-- The body of one (file index, class) iteration of getFixedSamples
(predict.py lines 215-241): a missing file index raises (uncaught
IndexError), an empty waveform skips the whole file, otherwise
`max_tack_samples` consecutive windows are produced. -/
def fixedUnit (fc : FeatCfg) (co : Corpus) (feat : List ℚ → List ℚ) (u : ℕ × String) :
    Except Unit (Option (List (List ℚ × ℕ))) :=
  match (co.filesOf u.2).get? u.1 with
  | none => Except.error ()
  | some file =>
    let w := co.wav file
    if w.length = 0 then Except.ok none
    else Except.ok (some ((List.range fc.max_tack_samples).map (fun ai =>
        (feat ((w.drop ai).take fc.step), co.classes.indexOf u.2))))

/-- The iteration space of both builders: the outer counter (round
number or file index), and per value of it every class in order. -/
def roundRobin (outer : ℕ) (classes : List String) : List (ℕ × String) :=
  (List.range outer).flatMap (fun r => classes.map (fun cls => (r, cls)))

/-- Runs the loop body over the iteration space, propagating a crash and
flattening the produced chunks, skips contributing nothing. -/
def collectUnits {β : Type} (f : β → Except Unit (Option (List (List ℚ × ℕ)))) :
    List β → Except Unit (List (List ℚ × ℕ))
  | [] => Except.ok []
  | x :: xs =>
    match f x with
    | Except.error e => Except.error e
    | Except.ok o =>
      match collectUnits f xs with
      | Except.error e => Except.error e
      | Except.ok rest => Except.ok (o.getD [] ++ rest)

/-- The assembly loop of getRandomSamples: `int(datasets / 3)` rounds
(the divisor is the literal 3 in the source, line 161), one iteration
per class per round. -/
def getRandomSamplesRaw (fc : FeatCfg) (co : Corpus) (feat : List ℚ → List ℚ)
    (pick : ℕ → String → String) (roff : ℕ → String → ℕ) (n : ℕ) :
    Except Unit (List (List ℚ × ℕ)) :=
  let ds := getRefactoredData fc.cat n
  let rounds := (pyInt ((ds : ℚ) / (3 : ℚ))).toNat
  collectUnits (randomUnit fc co feat pick roff) (roundRobin rounds co.classes)

/-- The assembly loop of getFixedSamples:
`int((datasets / max_tack_samples) / cat)` files per class (line 211),
each contributing `max_tack_samples` windows. -/
def getFixedSamplesRaw (fc : FeatCfg) (co : Corpus) (feat : List ℚ → List ℚ) (n : ℕ) :
    Except Unit (List (List ℚ × ℕ)) :=
  let ds := getRefactoredData fc.cat n
  let files := (pyInt ((ds : ℚ) / (fc.max_tack_samples : ℚ) / (fc.cat : ℚ))).toNat
  collectUnits (fixedUnit fc co feat) (roundRobin files co.classes)

/-- Model of np.amin over one feature matrix, `none` for an empty one
(where the source would raise; feature matrices are never empty). -/
def aminQ (s : List ℚ) : Option ℚ :=
  match s with
  | [] => none
  | x :: xs => some (xs.foldl min x)

/-- Model of np.amax over one feature matrix. -/
def amaxQ (s : List ℚ) : Option ℚ :=
  match s with
  | [] => none
  | x :: xs => some (xs.foldl max x)

/-- One update `_min = min(np.amin(X_sample), _min)` of the running
minimum; `none` models the initial `float(inf)`. -/
def stepMin (acc : Option ℚ) (s : List ℚ) : Option ℚ :=
  match aminQ s, acc with
  | none, a => a
  | some m, none => some m
  | some m, some a => some (min m a)

/-- One update `_max = max(np.amax(X_sample), _max)` of the running
maximum; `none` models the initial `-float(inf)`. -/
def stepMax (acc : Option ℚ) (s : List ℚ) : Option ℚ :=
  match amaxQ s, acc with
  | none, a => a
  | some m, none => some m
  | some m, some a => some (max m a)

/-- The running minimum over the assembled feature set, in assembly
order, exactly as the in-loop updates of the source compute it. -/
def foldMin (xs : List (List ℚ)) : Option ℚ := xs.foldl stepMin none

/-- The running maximum over the assembled feature set. -/
def foldMax (xs : List (List ℚ)) : Option ℚ := xs.foldl stepMax none

/-- The normalization `X = (X - _min) / (_max - _min)` (lines 197 and
250), applied unconditionally as in the source; in this exact-rational
model a zero span makes every quotient 0 by the division-by-zero
convention, where the float source would produce non-finite values. -/
def normalizeAll (xs : List (List ℚ)) (mn mx : ℚ) : List (List ℚ) :=
  xs.map (fun s => s.map (fun x => (x - mn) / (mx - mn)))

/-- Model of to_categorical: the one-hot row of a label index. -/
def oneHot (cat lab : ℕ) : List ℚ :=
  (List.range cat).map (fun i => if i = lab then 1 else 0)

/-- The shared return phase of both builders (lines 190-204 and
243-257): store the computed min/max (the last two components model the
assignment to config.min and config.max), normalize the features and
one-hot the labels.  The `getD 0` is only reached when no sample was
produced, where the normalization maps an empty list anyway. -/
def finishSamples (cat : ℕ) (raw : List (List ℚ × ℕ)) :
    List (List ℚ) × List (List ℚ) × Option ℚ × Option ℚ :=
  let X := raw.map Prod.fst
  let mn := foldMin X
  let mx := foldMax X
  (normalizeAll X (mn.getD 0) (mx.getD 0), (raw.map Prod.snd).map (oneHot cat), mn, mx)

/-- Normalization as the specification and claim words it: `max > min`
is required, so a degenerate span is refused instead of divided by. -/
def guardedNormalize (xs : List (List ℚ)) (mn mx : ℚ) : Option (List (List ℚ)) :=
  if mn < mx then some (normalizeAll xs mn mx) else none

/-- Model of np.mean of a probability vector. -/
def pyMean (l : List ℚ) : ℚ := l.sum / l.length

/-- The function buildPredctions (predict.py lines 280-290): builds
fixed-mode samples, binds y_prob to the feature tensors and y_true to
the one-hot labels (the variable names of the source notwithstanding),
reduces each per-sample prediction to the mean of the probability
vector, and returns (y_true, y_pred, y_prob). -/
def buildPredctions (fc : FeatCfg) (co : Corpus) (feat : List ℚ → List ℚ)
    (predict : List ℚ → List ℚ) (n : ℕ) :
    Except Unit (List (List ℚ) × List ℚ × List (List ℚ)) :=
  match getFixedSamplesRaw fc co feat n with
  | Except.error e => Except.error e
  | Except.ok raw =>
    let fin := finishSamples fc.cat raw
    Except.ok (fin.2.1, fin.1.map (fun x => pyMean (predict x)), fin.1)

/-- The sample that one successful (round, class) iteration of the
random builder appends. -/
def randomChunk (fc : FeatCfg) (co : Corpus) (feat : List ℚ → List ℚ)
    (pick : ℕ → String → String) (roff : ℕ → String → ℕ) (u : ℕ × String) :
    List (List ℚ × ℕ) :=
  [(feat (((co.wav (pick u.1 u.2)).drop
      (roff u.1 u.2 % ((co.wav (pick u.1 u.2)).length - fc.step))).take fc.step),
    co.classes.indexOf u.2)]

/-- The window list one (file index, class) iteration of the fixed
builder appends when the file exists. -/
def fixedChunk (fc : FeatCfg) (co : Corpus) (feat : List ℚ → List ℚ) (u : ℕ × String) :
    List (List ℚ × ℕ) :=
  match (co.filesOf u.2).get? u.1 with
  | none => []
  | some file => (List.range fc.max_tack_samples).map (fun ai =>
      (feat (((co.wav file).drop ai).take fc.step), co.classes.indexOf u.2))

/-- Category count 2 with two classes. -/
def fcW2 : FeatCfg := ⟨2, 1, 1⟩

/-- Two-class corpus with a single two-sample waveform everywhere. -/
def coW2 : Corpus := ⟨["a", "b"], fun _ => ["f"], fun _ => [0, 0]⟩

/-- Category count 3 with three classes and two windows per file. -/
def fcW3 : FeatCfg := ⟨3, 1, 2⟩

/-- Three-class corpus, two files per class, three-sample waveforms. -/
def coW3 : Corpus := ⟨["a", "b", "c"], fun _ => ["f", "g"], fun _ => [0, 5, 3]⟩

/-- Element-at-a-time running minimum, the flattened counterpart of the
per-matrix updates. -/
def optMin (a : Option ℚ) (x : ℚ) : Option ℚ :=
  match a with
  | none => some x
  | some m => some (min m x)

/-- Element-at-a-time running maximum. -/
def optMax (a : Option ℚ) (x : ℚ) : Option ℚ :=
  match a with
  | none => some x
  | some m => some (max m x)

/-- Category count 1, window length 2, one window per file. -/
def fcW1 : FeatCfg := ⟨1, 2, 1⟩

/-- One class, one file, a two-sample waveform. -/
def coW1 : Corpus := ⟨["a"], fun _ => ["f"], fun _ => [2, 4]⟩

lemma idStep_agree (conf cfg : Cfg) (prop : String) (a b : ℚ)
    (hp : (conf prop).isNone = (cfg prop).isNone) :
    idStep conf cfg (a, b) prop =
      (specFieldUpdate prop.length (conf prop) a, specFieldUpdate prop.length (cfg prop) b) := by
  cases hc : conf prop with
  | none =>
    cases hg : cfg prop with
    | none => simp [idStep, idTryStep, hc, hg, specFieldUpdate]
    | some w => rw [hc, hg] at hp; simp at hp
  | some v =>
    cases hg : cfg prop with
    | none => rw [hc, hg] at hp; simp at hp
    | some w => simp [idStep, idTryStep, hc, hg, specFieldUpdate, idBranch]

lemma foldl_idStep_pair (conf cfg : Cfg) (l : List String)
    (h : ∀ p ∈ l, (conf p).isNone = (cfg p).isNone) (a b : ℚ) :
    l.foldl (idStep conf cfg) (a, b) =
      (l.foldl (fun acc prop => specFieldUpdate prop.length (conf prop) acc) a,
       l.foldl (fun acc prop => specFieldUpdate prop.length (cfg prop) acc) b) := by
  induction l generalizing a b with
  | nil => rfl
  | cons p t ih =>
    have hp := h p (List.mem_cons_self p t)
    have ht : ∀ q ∈ t, (conf q).isNone = (cfg q).isNone :=
      fun q hq => h q (List.mem_cons_of_mem p hq)
    simp only [List.foldl_cons]
    rw [idStep_agree conf cfg p a b hp]
    exact ih ht _ _

lemma scanConfigs_fst (cfg : Cfg) (cid : ℚ) (l : List Cfg) :
    (scanConfigs cfg cid l).1 =
      l.find? (fun conf => decide ((computeIds conf cfg).1 = (computeIds conf cfg).2)) := by
  induction l generalizing cid with
  | nil => rfl
  | cons c t ih =>
    by_cases hc : (computeIds c cfg).1 = (computeIds c cfg).2
    · simp only [scanConfigs, if_pos hc]
      rw [List.find?_cons_of_pos _ (by simpa using hc)]
    · simp only [scanConfigs, if_neg hc]
      rw [List.find?_cons_of_neg _ (by simpa using hc)]
      exact ih _

lemma scanConfigs_cons (cfg : Cfg) (cid : ℚ) (c : Cfg) (t : List Cfg) :
    scanConfigs cfg cid (c :: t) =
      if (computeIds c cfg).1 = (computeIds c cfg).2
      then (some c, (computeIds c cfg).2)
      else scanConfigs cfg (computeIds c cfg).2 t := rfl

lemma scanConfigs_snd_nomatch (cfg : Cfg) :
    ∀ (l : List Cfg) (cid : ℚ) (hne : l ≠ []),
      (scanConfigs cfg cid l).1 = none →
      (scanConfigs cfg cid l).2 = (computeIds (l.getLast hne) cfg).2 := by
  intro l
  induction l with
  | nil => intro cid hne _; exact absurd rfl hne
  | cons c t ih =>
    intro cid hne hn
    by_cases hc : (computeIds c cfg).1 = (computeIds c cfg).2
    · exfalso
      rw [scanConfigs_cons, if_pos hc] at hn
      exact Option.some_ne_none c hn
    · cases t with
      | nil => simp [scanConfigs_cons, if_neg hc, scanConfigs, List.getLast]
      | cons d u =>
        rw [scanConfigs_cons, if_neg hc] at hn ⊢
        rw [List.getLast_cons (List.cons_ne_nil d u)]
        exact ih _ (List.cons_ne_nil d u) hn

/-- C1: in the lockstep identity computation of getTemporaryData, over
configurations whose importance fields succeed and fail at the same
places, each accumulator starts at 1 and is updated field by field in
list order: a field whose value compares equal to False multiplies the
accumulator by the field-name length, one comparing equal to True
divides it by the length, any other (numeric) value adds ten times the
value, after which the accumulator is rounded and incremented by 1;
a field that fails to evaluate instead multiplies the accumulator by
the field-name length, without the computation crashing. -/
theorem c1_per_field_update (conf cfg : Cfg)
    (h : ∀ p ∈ importance, (conf p).isNone = (cfg p).isNone) :
    computeIds conf cfg = (specIdentity conf, specIdentity cfg) := by
  unfold computeIds specIdentity
  exact foldl_idStep_pair conf cfg importance h 1 1

theorem c1_per_field_update_witness :
    (∀ p ∈ importance, (cfgA p).isNone = (cfgB p).isNone) ∧
    computeIds cfgA cfgB = (specIdentity cfgA, specIdentity cfgB) :=
  ⟨by decide, c1_per_field_update cfgA cfgB (by decide)⟩

/-- C2: the snapshot scan of getTemporaryData returns the first
candidate whose identity, recomputed from the seed for each candidate
in lockstep with the current configuration, equals that of the current
configuration; it returns none exactly when no candidate matches, in
which case the logged value is the identity of the current
configuration as computed in the last comparison. -/
theorem c2_findCompatible (cfg : Cfg) (cid : ℚ) (l : List Cfg) :
    ((getTemporaryData cfg cid l).1 =
        l.find? (fun conf => decide ((computeIds conf cfg).1 = (computeIds conf cfg).2))) ∧
    ((getTemporaryData cfg cid l).1 = none ↔
        ∀ conf ∈ l, ¬ (computeIds conf cfg).1 = (computeIds conf cfg).2) ∧
    (∀ hne : l ≠ [], (getTemporaryData cfg cid l).1 = none →
        (getTemporaryData cfg cid l).2 = (computeIds (l.getLast hne) cfg).2) := by
  refine ⟨scanConfigs_fst cfg cid l, ?_, ?_⟩
  · rw [getTemporaryData, scanConfigs_fst cfg cid l, List.find?_eq_none]
    constructor
    · intro h conf hc
      simpa using h conf hc
    · intro h conf hc
      simpa using h conf hc
  · intro hne hn
    exact scanConfigs_snd_nomatch cfg l cid hne hn

theorem c2_findCompatible_witness :
    ((getTemporaryData cfgE 7 [cfgD]).1 =
        [cfgD].find? (fun conf => decide ((computeIds conf cfgE).1 = (computeIds conf cfgE).2))) ∧
    (getTemporaryData cfgE 7 [cfgD]).1 = none ∧
    (getTemporaryData cfgE 7 [cfgD]).2 = (computeIds cfgD cfgE).2 := by
  have h := c2_findCompatible cfgE 7 [cfgD]
  have hdiff : ∀ conf ∈ [cfgD], ¬ (computeIds conf cfgE).1 = (computeIds conf cfgE).2 := by
    intro conf hconf
    rw [List.mem_singleton] at hconf
    subst hconf
    norm_num [computeIds, importance, idStep, idTryStep, idBranch, pyEqFalse, pyEqTrue, pvRat,
      cfgD, cfgE, pyRound]
  have hnone : (getTemporaryData cfgE 7 [cfgD]).1 = none := h.2.1.mpr hdiff
  exact ⟨h.1, hnone, h.2.2 (List.cons_ne_nil cfgD []) hnone⟩

/-- C3: identity depends only on the importance fields: two
configurations that agree on every importance field (including which
ones are missing) receive equal identities from the lockstep
computation. -/
theorem c3_identity_extensional (c1 c2 : Cfg)
    (h : ∀ p ∈ importance, c1 p = c2 p) :
    (computeIds c1 c2).1 = (computeIds c1 c2).2 := by
  have hn : ∀ p ∈ importance, (c1 p).isNone = (c2 p).isNone := fun p hp => by rw [h p hp]
  unfold computeIds
  rw [foldl_idStep_pair c1 c2 importance hn 1 1]
  exact List.foldl_ext (fun acc prop => specFieldUpdate prop.length (c1 prop) acc)
    (fun acc prop => specFieldUpdate prop.length (c2 prop) acc) 1
    (fun acc p hp => by
      show specFieldUpdate p.length (c1 p) acc = specFieldUpdate p.length (c2 p) acc
      rw [h p hp])

theorem c3_identity_extensional_witness :
    (∀ p ∈ importance, cfgE p = cfgF p) ∧
    (computeIds cfgE cfgF).1 = (computeIds cfgE cfgF).2 :=
  ⟨by decide, c3_identity_extensional cfgE cfgF (by decide)⟩

lemma pyInt_natCast_div (n c : ℕ) : pyInt ((n : ℚ) / (c : ℚ)) = ((n / c : ℕ) : ℤ) := by
  have hq : (0 : ℚ) ≤ (n : ℚ) / (c : ℚ) := div_nonneg (by positivity) (by positivity)
  unfold pyInt
  rw [if_pos hq]
  have h1 : (⌊(n : ℚ) / (c : ℚ)⌋).toNat = ⌊(n : ℚ) / (c : ℚ)⌋₊ := rfl
  have h2 : ⌊(n : ℚ) / ((c : ℕ) : ℚ)⌋₊ = ⌊(n : ℚ)⌋₊ / c := Nat.floor_div_nat (n : ℚ) c
  have h3 : ⌊(n : ℚ)⌋₊ = n := Nat.floor_natCast n
  rw [← Int.toNat_of_nonneg (Int.floor_nonneg.mpr hq), h1, h2, h3]

lemma refactor_eq (cat n : ℕ) : getRefactoredData cat n = n / cat * cat := by
  show (pyInt ((n : ℚ) / (cat : ℚ)) * (cat : ℤ)).toNat = n / cat * cat
  rw [pyInt_natCast_div, ← Nat.cast_mul, Int.toNat_natCast]

/-- C6: getRefactoredData rounds down to the nearest multiple of the
category count, is idempotent, always yields a multiple of the category
count, and maps 100 to 99 when the category count is 3. -/
theorem c6_refactor (cat n : ℕ) :
    getRefactoredData cat n = n / cat * cat ∧
    getRefactoredData cat (getRefactoredData cat n) = getRefactoredData cat n ∧
    getRefactoredData cat n % cat = 0 ∧
    getRefactoredData 3 100 = 99 := by
  refine ⟨refactor_eq cat n, ?_, ?_, ?_⟩
  · rw [refactor_eq, refactor_eq]
    rcases Nat.eq_zero_or_pos cat with h | h
    · simp [h]
    · rw [Nat.mul_div_cancel _ h]
  · rw [refactor_eq]
    exact Nat.mul_mod_left _ _
  · rw [refactor_eq]

/-- C9: getMaximumSamples computes the floor of the quotient exactly for
positive inputs, and yields 0 when the window is shorter than one
sample. -/
theorem c9_maximum_samples (al sl : ℚ) (h1 : 0 < al) (h2 : 0 < sl) :
    getMaximumSamples al sl = ⌊al / sl⌋ ∧ (al < sl → getMaximumSamples al sl = 0) := by
  have hq : (0 : ℚ) ≤ al / sl := le_of_lt (div_pos h1 h2)
  constructor
  · unfold getMaximumSamples pyInt
    rw [if_pos hq]
  · intro hlt
    unfold getMaximumSamples pyInt
    rw [if_pos hq]
    have hone : al / sl < 1 := (div_lt_one h2).mpr hlt
    exact Int.floor_eq_zero_iff.mpr ⟨hq, hone⟩

theorem c9_maximum_samples_witness :
    getMaximumSamples (1 / 2) 2 = ⌊(1 / 2 : ℚ) / 2⌋ ∧
    ((1 / 2 : ℚ) < 2 → getMaximumSamples (1 / 2) 2 = 0) :=
  c9_maximum_samples (1 / 2) 2 (by norm_num) (by norm_num)

lemma resolveOverride_fst (user : Option ℕ) (m : ℕ) :
    (resolveOverride user m).1 = min (user.getD m) m := by
  cases user with
  | none => simp [resolveOverride]
  | some u =>
    simp only [resolveOverride, Option.getD_some]
    split <;> omega

lemma resolveOverride_snd (user : Option ℕ) (m : ℕ) :
    (resolveOverride user m).2 = true ↔ ∃ u, user = some u ∧ u > m := by
  cases user with
  | none => simp [resolveOverride]
  | some u =>
    simp only [resolveOverride]
    split <;> simp_all

/-- C8: each override is clamped to its computed maximum (the min of
the supplied value and the maximum, the maximum itself when unset), the
computed maximum of max_data is taken over the already-resolved fields,
and the warning flag of a field is raised exactly when a supplied value
exceeded its maximum; the function is total, so no input aborts. -/
theorem c8_override_validation (ov : OvConfig) (classes : List String) (fcount : String → ℕ) :
    (calculateConfigData ov classes fcount).cat =
      min (ov.cat.getD classes.length) classes.length ∧
    (calculateConfigData ov classes fcount).max_class_files =
      min (ov.max_class_files.getD (getSmallestDataset classes fcount))
        (getSmallestDataset classes fcount) ∧
    (calculateConfigData ov classes fcount).max_tack_samples =
      min (ov.max_tack_samples.getD (getMaximumSamples ov.audio_length ov.sample_length).toNat)
        (getMaximumSamples ov.audio_length ov.sample_length).toNat ∧
    (calculateConfigData ov classes fcount).max_data =
      min (ov.max_data.getD
          ((calculateConfigData ov classes fcount).max_class_files *
            (calculateConfigData ov classes fcount).cat *
            (calculateConfigData ov classes fcount).max_tack_samples))
        ((calculateConfigData ov classes fcount).max_class_files *
          (calculateConfigData ov classes fcount).cat *
          (calculateConfigData ov classes fcount).max_tack_samples) ∧
    ((calculateConfigData ov classes fcount).warnings =
      [(resolveOverride ov.cat classes.length).2,
       (resolveOverride ov.max_class_files (getSmallestDataset classes fcount)).2,
       (resolveOverride ov.max_tack_samples
          (getMaximumSamples ov.audio_length ov.sample_length).toNat).2,
       (resolveOverride ov.max_data
          ((calculateConfigData ov classes fcount).max_class_files *
            (calculateConfigData ov classes fcount).cat *
            (calculateConfigData ov classes fcount).max_tack_samples)).2]) ∧
    (∀ user m, (resolveOverride user m).2 = true ↔ ∃ u, user = some u ∧ u > m) :=
  ⟨resolveOverride_fst _ _, resolveOverride_fst _ _, resolveOverride_fst _ _,
   resolveOverride_fst _ _, rfl, resolveOverride_snd⟩

lemma fitRun_mem {α : Type} (sh : List α → List α) :
    ∀ (k : ℕ) (s : List α × List α), ∀ pr ∈ fitRun sh k s, pr.2 = sh pr.1 := by
  intro k
  induction k with
  | zero => intro s pr hpr; simp [fitRun] at hpr
  | succ k ih =>
    intro s pr hpr
    rcases List.mem_cons.mp hpr with h | h
    · subst h; rfl
    · exact ih _ pr h

lemma fitRun_snd_independent {α : Type} (sh : List α → List α) :
    ∀ (k : ℕ) (x v v₁ : List α), fitRun sh k (x, v) = fitRun sh k (x, v₁) := by
  intro k
  induction k with
  | zero => intro x v v₁; rfl
  | succ k _ => intro x v v₁; rfl

/-- C10: on every call of the fitting loop, the validation data passed
to model.fit is the same-seed shuffle of the training data passed on
that call, hence a permutation of it (identical as a multiset of rows);
and the validation arguments supplied to fitModel never influence the
trace. -/
theorem c10_validation_reassigned {α : Type} (sh : List α → List α)
    (hsh : ∀ l, (sh l).Perm l) (calls : ℕ) (X0 val0 : List α) :
    (∀ pr ∈ fitModelTrace sh calls X0 val0, pr.2 = sh pr.1 ∧ pr.2.Perm pr.1) ∧
    (∀ val1, fitModelTrace sh calls X0 val0 = fitModelTrace sh calls X0 val1) := by
  constructor
  · intro pr hpr
    have h2 := fitRun_mem sh calls (X0, val0) pr hpr
    exact ⟨h2, h2 ▸ hsh pr.1⟩
  · intro val1
    exact fitRun_snd_independent sh calls X0 val0 val1

lemma getRandomSamplesRaw_eq (fc : FeatCfg) (co : Corpus) (feat : List ℚ → List ℚ)
    (pick : ℕ → String → String) (roff : ℕ → String → ℕ) (n : ℕ) :
    getRandomSamplesRaw fc co feat pick roff n =
      collectUnits (randomUnit fc co feat pick roff)
        (roundRobin (getRefactoredData fc.cat n / 3) co.classes) := by
  show collectUnits _
      (roundRobin ((pyInt ((getRefactoredData fc.cat n : ℚ) / (3 : ℚ))).toNat) co.classes) = _
  rw [show ((3 : ℚ)) = ((3 : ℕ) : ℚ) by norm_num, pyInt_natCast_div, Int.toNat_natCast]

lemma getFixedSamplesRaw_eq (fc : FeatCfg) (co : Corpus) (feat : List ℚ → List ℚ) (n : ℕ) :
    getFixedSamplesRaw fc co feat n =
      collectUnits (fixedUnit fc co feat)
        (roundRobin (getRefactoredData fc.cat n / fc.max_tack_samples / fc.cat) co.classes) := by
  show collectUnits _
      (roundRobin ((pyInt ((getRefactoredData fc.cat n : ℚ) / (fc.max_tack_samples : ℚ) /
        (fc.cat : ℚ))).toNat) co.classes) = _
  rw [div_div,
    show ((fc.max_tack_samples : ℚ) * (fc.cat : ℚ)) =
      ((fc.max_tack_samples * fc.cat : ℕ) : ℚ) from by push_cast; ring,
    pyInt_natCast_div, Int.toNat_natCast, Nat.div_div_eq_div_mul]

lemma collectUnits_ok {β : Type} (f : β → Except Unit (Option (List (List ℚ × ℕ))))
    (g : β → List (List ℚ × ℕ)) :
    ∀ l : List β, (∀ x ∈ l, f x = Except.ok (some (g x))) →
      collectUnits f l = Except.ok (l.flatMap g) := by
  intro l
  induction l with
  | nil => intro _; rfl
  | cons x xs ih =>
    intro h
    have hx := h x (List.mem_cons_self x xs)
    have hxs := ih (fun y hy => h y (List.mem_cons_of_mem x hy))
    simp only [collectUnits, hx, hxs, List.flatMap_cons, Option.getD_some]

lemma roundRobin_length (outer : ℕ) (classes : List String) :
    (roundRobin outer classes).length = outer * classes.length := by
  unfold roundRobin
  rw [List.length_flatMap]
  have hmap : List.map (List.length ∘ fun r => classes.map (fun cls => (r, cls)))
      (List.range outer) = List.replicate outer classes.length := by
    rw [show (List.length ∘ fun r => classes.map (fun cls => (r, cls))) =
        Function.const ℕ classes.length from by funext r; simp [Function.comp, Function.const]]
    rw [List.map_const, List.length_range]
  rw [hmap, List.sum_replicate, smul_eq_mul]

lemma length_flatMap_const {β γ : Type} (g : β → List γ) (k : ℕ) :
    ∀ l : List β, (∀ x ∈ l, (g x).length = k) → (l.flatMap g).length = l.length * k := by
  intro l
  induction l with
  | nil => intro _; simp
  | cons x xs ih =>
    intro h
    rw [List.flatMap_cons, List.length_append, h x (List.mem_cons_self x xs),
      ih (fun y hy => h y (List.mem_cons_of_mem x hy)), List.length_cons]
    ring

lemma mem_roundRobin_snd {outer : ℕ} {classes : List String} {u : ℕ × String}
    (h : u ∈ roundRobin outer classes) : u.2 ∈ classes := by
  unfold roundRobin at h
  rw [List.mem_flatMap] at h
  obtain ⟨r, _, hm⟩ := h
  rw [List.mem_map] at hm
  obtain ⟨cls, hcls, he⟩ := hm
  rw [← he]
  exact hcls

/-- C4, counterexample: with category count 2, two classes, and
requested count 2, getRefactoredData gives 2 but the random builder
performs int(2/3) = 0 rounds and so produces no sample at all, against
the claimed exact count refactor(2) = 2 (the round divisor in the
source is the literal 3, not the category count). -/
theorem c4_sample_count_counterexample :
    getRandomSamplesRaw fcW2 coW2 (fun w => w) (fun _ _ => "f") (fun _ _ => 0) 2 =
      Except.ok [] ∧
    getRefactoredData fcW2.cat 2 = 2 := by
  constructor
  · rw [getRandomSamplesRaw_eq]
    rw [show getRefactoredData fcW2.cat 2 / 3 = 0 from by rw [refactor_eq]; decide]
    rfl
  · rw [refactor_eq]
    decide

/-- C4, amended: absent skips and crashes, the random builder yields
int(refactor(n)/3) * numClasses samples (one per class per round, the
divisor being the literal 3), each labeled inside the recognized class
set, and the fixed builder yields
int(refactor(n)/maxTrackSamplesPerFile/categoryCount) files per class
with maxTrackSamplesPerFile windows per file; neither count equals
refactor(n) in general. -/
theorem c4_sample_count_amended (fc : FeatCfg) (co : Corpus) (feat : List ℚ → List ℚ)
    (pick : ℕ → String → String) (roff : ℕ → String → ℕ) (n : ℕ)
    (hr : ∀ r cls, cls ∈ co.classes → fc.step < (co.wav (pick r cls)).length)
    (hf : ∀ u ∈ roundRobin (getRefactoredData fc.cat n / fc.max_tack_samples / fc.cat)
        co.classes,
        ∃ file, (co.filesOf u.2).get? u.1 = some file ∧ (co.wav file).length ≠ 0) :
    (∃ l, getRandomSamplesRaw fc co feat pick roff n = Except.ok l ∧
        l.length = getRefactoredData fc.cat n / 3 * co.classes.length ∧
        ∀ pr ∈ l, pr.2 < co.classes.length) ∧
    (∃ l, getFixedSamplesRaw fc co feat n = Except.ok l ∧
        l.length = getRefactoredData fc.cat n / fc.max_tack_samples / fc.cat *
          co.classes.length * fc.max_tack_samples) := by
  constructor
  · have hok : ∀ u ∈ roundRobin (getRefactoredData fc.cat n / 3) co.classes,
        randomUnit fc co feat pick roff u =
          Except.ok (some (randomChunk fc co feat pick roff u)) := by
      intro u hu
      have hlen := hr u.1 u.2 (mem_roundRobin_snd hu)
      simp only [randomUnit, randomChunk]
      rw [if_neg (by omega), if_neg (by omega)]
    refine ⟨(roundRobin (getRefactoredData fc.cat n / 3) co.classes).flatMap
        (randomChunk fc co feat pick roff), ?_, ?_, ?_⟩
    · rw [getRandomSamplesRaw_eq]
      exact collectUnits_ok _ _ _ hok
    · rw [length_flatMap_const (randomChunk fc co feat pick roff) 1
        (roundRobin (getRefactoredData fc.cat n / 3) co.classes) (fun u _ => rfl),
        roundRobin_length, mul_one]
    · intro pr hpr
      rw [List.mem_flatMap] at hpr
      obtain ⟨u, hu, hm⟩ := hpr
      rw [randomChunk, List.mem_singleton] at hm
      subst hm
      exact List.indexOf_lt_length.mpr (mem_roundRobin_snd hu)
  · have hok : ∀ u ∈ roundRobin (getRefactoredData fc.cat n / fc.max_tack_samples / fc.cat)
        co.classes,
        fixedUnit fc co feat u = Except.ok (some (fixedChunk fc co feat u)) := by
      intro u hu
      obtain ⟨file, hfile, hw⟩ := hf u hu
      simp only [fixedUnit, fixedChunk, hfile]
      rw [if_neg hw]
    refine ⟨(roundRobin (getRefactoredData fc.cat n / fc.max_tack_samples / fc.cat)
        co.classes).flatMap (fixedChunk fc co feat), ?_, ?_⟩
    · rw [getFixedSamplesRaw_eq]
      exact collectUnits_ok _ _ _ hok
    · have hclen : ∀ u ∈ roundRobin (getRefactoredData fc.cat n / fc.max_tack_samples / fc.cat)
          co.classes, (fixedChunk fc co feat u).length = fc.max_tack_samples := by
        intro u hu
        obtain ⟨file, hfile, _⟩ := hf u hu
        rw [List.get?_eq_getElem?] at hfile
        simp [fixedChunk, hfile]
      rw [length_flatMap_const (fixedChunk fc co feat) fc.max_tack_samples _ hclen,
        roundRobin_length]

theorem c4_sample_count_amended_witness :
    (∃ l, getRandomSamplesRaw fcW3 coW3 (fun w => w) (fun _ _ => "f") (fun _ _ => 0) 6 =
        Except.ok l ∧
        l.length = getRefactoredData fcW3.cat 6 / 3 * coW3.classes.length ∧
        ∀ pr ∈ l, pr.2 < coW3.classes.length) ∧
    (∃ l, getFixedSamplesRaw fcW3 coW3 (fun w => w) 6 = Except.ok l ∧
        l.length = getRefactoredData fcW3.cat 6 / fcW3.max_tack_samples / fcW3.cat *
          coW3.classes.length * fcW3.max_tack_samples) := by
  apply c4_sample_count_amended
  · intro r cls _
    decide
  · intro u hu
    rw [show getRefactoredData fcW3.cat 6 / fcW3.max_tack_samples / fcW3.cat = 1 from by
      rw [refactor_eq]; decide] at hu
    fin_cases hu <;> exact ⟨"f", rfl, by decide⟩

lemma foldl_optMin_some (xs : List ℚ) : ∀ c : ℚ, xs.foldl optMin (some c) = some (xs.foldl min c) := by
  induction xs with
  | nil => intro c; rfl
  | cons x t ih =>
    intro c
    simp only [List.foldl_cons, optMin]
    exact ih (min c x)

lemma foldl_optMax_some (xs : List ℚ) : ∀ c : ℚ, xs.foldl optMax (some c) = some (xs.foldl max c) := by
  induction xs with
  | nil => intro c; rfl
  | cons x t ih =>
    intro c
    simp only [List.foldl_cons, optMax]
    exact ih (max c x)

lemma foldl_min_extract (xs : List ℚ) : ∀ a x : ℚ, xs.foldl min (min a x) = min a (xs.foldl min x) := by
  induction xs with
  | nil => intro a x; rfl
  | cons y t ih =>
    intro a x
    simp only [List.foldl_cons]
    rw [min_assoc, ih]

lemma foldl_max_extract (xs : List ℚ) : ∀ a x : ℚ, xs.foldl max (max a x) = max a (xs.foldl max x) := by
  induction xs with
  | nil => intro a x; rfl
  | cons y t ih =>
    intro a x
    simp only [List.foldl_cons]
    rw [max_assoc, ih]

lemma stepMin_eq_foldl (acc : Option ℚ) (s : List ℚ) : stepMin acc s = s.foldl optMin acc := by
  cases s with
  | nil => cases acc <;> rfl
  | cons x t =>
    cases acc with
    | none =>
      simp only [stepMin, aminQ, List.foldl_cons, optMin]
      rw [foldl_optMin_some]
    | some a =>
      simp only [stepMin, aminQ, List.foldl_cons, optMin]
      rw [foldl_optMin_some, foldl_min_extract, min_comm]

lemma stepMax_eq_foldl (acc : Option ℚ) (s : List ℚ) : stepMax acc s = s.foldl optMax acc := by
  cases s with
  | nil => cases acc <;> rfl
  | cons x t =>
    cases acc with
    | none =>
      simp only [stepMax, amaxQ, List.foldl_cons, optMax]
      rw [foldl_optMax_some]
    | some a =>
      simp only [stepMax, amaxQ, List.foldl_cons, optMax]
      rw [foldl_optMax_some, foldl_max_extract, max_comm]

lemma foldl_stepMin_flat (xs : List (List ℚ)) : ∀ acc : Option ℚ,
    xs.foldl stepMin acc = (xs.flatMap id).foldl optMin acc := by
  induction xs with
  | nil => intro acc; rfl
  | cons s t ih =>
    intro acc
    rw [List.foldl_cons, List.flatMap_cons, List.foldl_append, stepMin_eq_foldl, ih]
    rfl

lemma foldl_stepMax_flat (xs : List (List ℚ)) : ∀ acc : Option ℚ,
    xs.foldl stepMax acc = (xs.flatMap id).foldl optMax acc := by
  induction xs with
  | nil => intro acc; rfl
  | cons s t ih =>
    intro acc
    rw [List.foldl_cons, List.flatMap_cons, List.foldl_append, stepMax_eq_foldl, ih]
    rfl

lemma foldl_optMin_le (F : List ℚ) : ∀ (acc : Option ℚ) (m : ℚ),
    F.foldl optMin acc = some m → (∀ x ∈ F, m ≤ x) ∧ (∀ a, acc = some a → m ≤ a) := by
  induction F with
  | nil =>
    intro acc m h
    refine ⟨fun x hx => absurd hx (List.not_mem_nil x), fun a ha => ?_⟩
    rw [ha] at h
    exact le_of_eq (Option.some_injective ℚ h).symm
  | cons x t ih =>
    intro acc m h
    rw [List.foldl_cons] at h
    obtain ⟨h1, h2⟩ := ih (optMin acc x) m h
    refine ⟨fun y hy => ?_, fun a ha => ?_⟩
    · rcases List.mem_cons.mp hy with he | hy
      · subst he
        cases acc with
        | none => exact h2 y rfl
        | some a0 => exact le_trans (h2 (min a0 y) rfl) (min_le_right a0 y)
      · exact h1 y hy
    · exact le_trans (h2 (min a x) (by rw [ha]; rfl)) (min_le_left a x)

lemma foldl_optMax_ge (F : List ℚ) : ∀ (acc : Option ℚ) (m : ℚ),
    F.foldl optMax acc = some m → (∀ x ∈ F, x ≤ m) ∧ (∀ a, acc = some a → a ≤ m) := by
  induction F with
  | nil =>
    intro acc m h
    refine ⟨fun x hx => absurd hx (List.not_mem_nil x), fun a ha => ?_⟩
    rw [ha] at h
    exact le_of_eq (Option.some_injective ℚ h)
  | cons x t ih =>
    intro acc m h
    rw [List.foldl_cons] at h
    obtain ⟨h1, h2⟩ := ih (optMax acc x) m h
    refine ⟨fun y hy => ?_, fun a ha => ?_⟩
    · rcases List.mem_cons.mp hy with he | hy
      · subst he
        cases acc with
        | none => exact h2 y rfl
        | some a0 => exact le_trans (le_max_right a0 y) (h2 (max a0 y) rfl)
      · exact h1 y hy
    · exact le_trans (le_max_left a x) (h2 (max a x) (by rw [ha]; rfl))

/-- C5, amended: the running min/max of both builders equal the min/max
of the entire assembled raw feature set (one pass, in assembly order);
every raw value lies between them; after `(x - min) / (max - min)` every
value lies in [0, 1] provided max > min; and the computed min/max are
the values stored on the Configuration by the shared return phase.  The
source, however, performs the division unconditionally: no max > min
guard exists (see the counterexample). -/
theorem c5_normalization_amended (X : List (List ℚ)) (mn mx : ℚ)
    (hmn : foldMin X = some mn) (hmx : foldMax X = some mx) (hlt : mn < mx) :
    foldMin X = (X.flatMap id).foldl optMin none ∧
    foldMax X = (X.flatMap id).foldl optMax none ∧
    (∀ s ∈ X, ∀ x ∈ s, mn ≤ x ∧ x ≤ mx) ∧
    (∀ s ∈ normalizeAll X mn mx, ∀ v ∈ s, 0 ≤ v ∧ v ≤ 1) ∧
    (∀ (cat : ℕ) (raw : List (List ℚ × ℕ)), raw.map Prod.fst = X →
        (finishSamples cat raw).2.2.1 = foldMin X ∧
        (finishSamples cat raw).2.2.2 = foldMax X ∧
        (finishSamples cat raw).1 = normalizeAll X mn mx) := by
  have hflatmin : foldMin X = (X.flatMap id).foldl optMin none := foldl_stepMin_flat X none
  have hflatmax : foldMax X = (X.flatMap id).foldl optMax none := foldl_stepMax_flat X none
  have hbounds : ∀ s ∈ X, ∀ x ∈ s, mn ≤ x ∧ x ≤ mx := by
    intro s hs x hx
    have hxf : x ∈ X.flatMap id := List.mem_flatMap.mpr ⟨s, hs, hx⟩
    constructor
    · exact (foldl_optMin_le (X.flatMap id) none mn (by rw [← hflatmin]; exact hmn)).1 x hxf
    · exact (foldl_optMax_ge (X.flatMap id) none mx (by rw [← hflatmax]; exact hmx)).1 x hxf
  refine ⟨hflatmin, hflatmax, hbounds, ?_, ?_⟩
  · intro s hs v hv
    rw [normalizeAll, List.mem_map] at hs
    obtain ⟨row, hrow, he⟩ := hs
    subst he
    rw [List.mem_map] at hv
    obtain ⟨x, hx, he⟩ := hv
    subst he
    obtain ⟨h1, h2⟩ := hbounds row hrow x hx
    have hpos : 0 < mx - mn := sub_pos.mpr hlt
    constructor
    · exact div_nonneg (sub_nonneg.mpr h1) (le_of_lt hpos)
    · rw [div_le_one hpos]
      exact sub_le_sub_right h2 mn
  · intro cat raw hraw
    refine ⟨?_, ?_, ?_⟩
    · show foldMin (raw.map Prod.fst) = foldMin X
      rw [hraw]
    · show foldMax (raw.map Prod.fst) = foldMax X
      rw [hraw]
    · show normalizeAll (raw.map Prod.fst) ((foldMin (raw.map Prod.fst)).getD 0)
        ((foldMax (raw.map Prod.fst)).getD 0) = normalizeAll X mn mx
      rw [hraw, hmn, hmx, Option.getD_some, Option.getD_some]

theorem c5_normalization_amended_witness :
    foldMin [[(0 : ℚ), 2], [1]] = ([[(0 : ℚ), 2], [1]].flatMap id).foldl optMin none ∧
    foldMax [[(0 : ℚ), 2], [1]] = ([[(0 : ℚ), 2], [1]].flatMap id).foldl optMax none ∧
    (∀ s ∈ [[(0 : ℚ), 2], [1]], ∀ x ∈ s, (0 : ℚ) ≤ x ∧ x ≤ 2) ∧
    (∀ s ∈ normalizeAll [[(0 : ℚ), 2], [1]] 0 2, ∀ v ∈ s, 0 ≤ v ∧ v ≤ 1) ∧
    (∀ (cat : ℕ) (raw : List (List ℚ × ℕ)), raw.map Prod.fst = [[(0 : ℚ), 2], [1]] →
        (finishSamples cat raw).2.2.1 = foldMin [[(0 : ℚ), 2], [1]] ∧
        (finishSamples cat raw).2.2.2 = foldMax [[(0 : ℚ), 2], [1]] ∧
        (finishSamples cat raw).1 = normalizeAll [[(0 : ℚ), 2], [1]] 0 2) :=
  c5_normalization_amended [[0, 2], [1]] 0 2
    (by norm_num [foldMin, stepMin, aminQ, min_def])
    (by norm_num [foldMax, stepMax, amaxQ, max_def])
    (by norm_num)

/-- C5, counterexample: a constant feature set has max = min; the
guarded normalization the claim asserts refuses it, but the source
applies the division regardless (in this exact model every quotient
becomes 0 by the division-by-zero convention; the float source divides
by zero here, which is precisely the unguarded case). -/
theorem c5_normalization_counterexample :
    foldMin [[(5 : ℚ), 5], [5]] = some 5 ∧
    foldMax [[(5 : ℚ), 5], [5]] = some 5 ∧
    guardedNormalize [[(5 : ℚ), 5], [5]] 5 5 = none ∧
    normalizeAll [[(5 : ℚ), 5], [5]] 5 5 = [[0, 0], [0]] ∧
    (finishSamples 1 [([(5 : ℚ), 5], 0), ([5], 0)]).1 = [[0, 0], [0]] := by
  refine ⟨?_, ?_, ?_, ?_, ?_⟩ <;>
    norm_num [foldMin, foldMax, stepMin, stepMax, aminQ, amaxQ, guardedNormalize,
      normalizeAll, finishSamples, min_def, max_def, List.replicate]

set_option maxHeartbeats 2000000 in
/-- C7, amended: buildPredctions builds fixed-mode samples and returns,
in order, the one-hot true-label rows (not bare indices), the per-sample
predictions each reduced to the mean of the classifier probability
vector, and the normalized feature matrices themselves (not the
probability vectors); the three sequences have equal lengths, and every
returned label row is a one-hot row of width cat. -/
theorem c7_predictions_amended (fc : FeatCfg) (co : Corpus) (feat : List ℚ → List ℚ)
    (predict : List ℚ → List ℚ) (n : ℕ) (raw : List (List ℚ × ℕ))
    (h : getFixedSamplesRaw fc co feat n = Except.ok raw) :
    buildPredctions fc co feat predict n =
      Except.ok ((finishSamples fc.cat raw).2.1,
        (finishSamples fc.cat raw).1.map (fun x => pyMean (predict x)),
        (finishSamples fc.cat raw).1) ∧
    (finishSamples fc.cat raw).1.length = raw.length ∧
    (finishSamples fc.cat raw).2.1.length = raw.length ∧
    ((finishSamples fc.cat raw).1.map (fun x => pyMean (predict x))).length = raw.length ∧
    (∀ v ∈ (finishSamples fc.cat raw).2.1, v.length = fc.cat) := by
  have hx : (finishSamples fc.cat raw).1.length = raw.length := by
    show (normalizeAll (raw.map Prod.fst) _ _).length = raw.length
    rw [normalizeAll, List.length_map, List.length_map]
  refine ⟨?_, hx, ?_, ?_, ?_⟩
  · simp only [buildPredctions, h]
  · show ((raw.map Prod.snd).map (oneHot fc.cat)).length = raw.length
    rw [List.length_map, List.length_map]
  · rw [List.length_map]
    exact hx
  · intro v hv
    have hv2 : v ∈ (raw.map Prod.snd).map (oneHot fc.cat) := hv
    rw [List.mem_map] at hv2
    obtain ⟨lab, _, he⟩ := hv2
    rw [← he, oneHot, List.length_map, List.length_range]

lemma fixedRawW1 : getFixedSamplesRaw fcW1 coW1 (fun w => w) 1 = Except.ok [([2, 4], 0)] := by
  rw [getFixedSamplesRaw_eq]
  rw [show getRefactoredData fcW1.cat 1 / fcW1.max_tack_samples / fcW1.cat = 1 from by
    rw [refactor_eq]; rfl]
  rfl

theorem c7_predictions_amended_witness :
    buildPredctions fcW1 coW1 (fun w => w) (fun _ => [(9 : ℚ)]) 1 =
      Except.ok ((finishSamples fcW1.cat [([2, 4], 0)]).2.1,
        (finishSamples fcW1.cat [([2, 4], 0)]).1.map (fun x => pyMean ((fun _ => [(9 : ℚ)]) x)),
        (finishSamples fcW1.cat [([2, 4], 0)]).1) ∧
    (finishSamples fcW1.cat [([2, 4], 0)]).1.length = [([(2 : ℚ), 4], 0)].length ∧
    (finishSamples fcW1.cat [([2, 4], 0)]).2.1.length = [([(2 : ℚ), 4], 0)].length ∧
    ((finishSamples fcW1.cat [([2, 4], 0)]).1.map
        (fun x => pyMean ((fun _ => [(9 : ℚ)]) x))).length = [([(2 : ℚ), 4], 0)].length ∧
    (∀ v ∈ (finishSamples fcW1.cat [([2, 4], 0)]).2.1, v.length = fcW1.cat) :=
  c7_predictions_amended fcW1 coW1 (fun w => w) (fun _ => [(9 : ℚ)]) 1 [([2, 4], 0)] fixedRawW1

/-- C7, counterexample: on a one-sample run with a classifier returning
the probability vector [9], the source returns the one-hot label rows
and the normalized features [[0, 1]] as its first and third components;
the third component differs from the probability vectors [[9]], so the
claim that the raw probability vectors are returned is false (and the
first component is a one-hot row, not a label index). -/
theorem c7_predictions_counterexample :
    buildPredctions fcW1 coW1 (fun w => w) (fun _ => [(9 : ℚ)]) 1 =
      Except.ok ([[1]], [9], [[0, 1]]) ∧
    ¬ ([[(0 : ℚ), 1]] = [[(0 : ℚ), 1]].map (fun _ => [(9 : ℚ)])) := by
  constructor
  · simp only [buildPredctions, fixedRawW1]
    norm_num [finishSamples, foldMin, foldMax, stepMin, stepMax, aminQ, amaxQ,
      normalizeAll, oneHot, pyMean, min_def, max_def, fcW1, List.range_succ]
  · intro hcontra
    norm_num at hcontra

theorem c10_validation_reassigned_witness :
    (∀ pr ∈ fitModelTrace List.reverse 2 [1, 2, 3] ([9] : List ℕ),
        pr.2 = List.reverse pr.1 ∧ pr.2.Perm pr.1) ∧
    (∀ val1, fitModelTrace List.reverse 2 [1, 2, 3] ([9] : List ℕ) =
        fitModelTrace List.reverse 2 [1, 2, 3] val1) :=
  c10_validation_reassigned List.reverse (fun l => l.reverse_perm) 2 [1, 2, 3] [9]

end Songs
